import Mathlib

/-!
Verification of the redis-cerberus proxy core (src/proxy.cpp).

The development shallowly embeds the upstream (`Server`) and client handler
logic of `proxy.cpp`: staging/pending queues, the reply-routing loop
`copy_messages`, the handlers `_send_to`, `_recv_from`, `push_client`,
`pop_client`, `triggered`, and a small-step system model of the reactor.
Bytes are `Nat`, buffers are `List Nat`, and each client is identified by a
`Nat`; the buffer of each client is a total map `ClientId → List Byte`.

The `Buffer` and `msg::split` implementations (buffer.cpp / message.cpp) are
not part of the given sources; they are modelled from the specification
(spec.md sections 3, 4.1, 4.2) and each such definition is marked
"Modelled from the spec" in its doc comment.
-/

/-- Bytes are modelled as natural numbers (values of `unsigned char`). -/
abbrev Byte := Nat

/-- Clients are identified by an abstract id (standing for the `Client*`). -/
abbrev ClientId := Nat

/-- Total map from client id to that client's byte buffer (the single
`Client::buffer` of the source, used for both requests and replies). -/
abbrev ClientBufs := ClientId → List Byte

namespace msg

/-- Result of scanning for a CRLF-terminated line. -/
inductive LineRes where
  | found (content rest : List Byte) : LineRes
  | needMore : LineRes
  | malformed : LineRes
deriving DecidableEq

/-- Modelled from the spec: RESP frames are "terminated by CRLF" (spec 4.2).
Scan for the first CR (13); it must be immediately followed by LF (10).
A CR at the very end of the input means the line is incomplete. -/
def scanLine : List Byte → LineRes
  | [] => .needMore
  | [13] => .needMore
  | 13 :: 10 :: rest => .found [] rest
  | 13 :: _ :: _ => .malformed
  | b :: rest =>
    match scanLine rest with
    | .found content r => .found (b :: content) r
    | .needMore => .needMore
    | .malformed => .malformed

/-- Accumulating decimal-digit reader; fails on a non-digit. -/
def digitsAux : Nat → List Byte → Option Nat
  | acc, [] => some acc
  | acc, d :: rest =>
    if 48 ≤ d ∧ d ≤ 57 then digitsAux (acc * 10 + (d - 48)) rest else none

/-- Decimal digits to a number; the empty digit string is malformed. -/
def digitsToNat : List Byte → Option Nat
  | [] => none
  | l => digitsAux 0 l

/-- Modelled from the spec: the integer in a `$`/`*` length line, with an
optional leading minus sign (45). -/
def parseIntContent : List Byte → Option Int
  | 45 :: ds => (digitsToNat ds).map (fun n => -(n : Int))
  | ds => (digitsToNat ds).map Int.ofNat

/-- Outcome of locating one RESP message at the head of a byte list:
it occupies exactly the first `k` bytes, or more bytes are needed,
or the head is malformed. -/
inductive OneRes where
  | complete (k : Nat) : OneRes
  | needMore : OneRes
  | malformed : OneRes
deriving DecidableEq

/-- Modelled from the spec (4.2): one fuel level of the framer.  The first
component locates one complete RESP message at the head of the input; the
second frames `n` consecutive messages (array elements) and returns their
total length.  The framer recognizes the five RESP types (`+` 43, `-` 45,
`:` 58 simple lines; `$` 36 bulk string whose length line determines the
exact payload length plus a trailing CRLF; `*` 42 array that recursively
frames its elements).  A negative `$`/`*` count is a null frame consisting
of the header line alone.  Any other leading byte is malformed.  The fuel
decreases on every nested call and only bounds recursion depth; callers
pass one more than the input length, which is never exhausted because each
element or nesting level consumes bytes. -/
def parseFns : Nat → (List Byte → OneRes) × (Nat → List Byte → OneRes)
  | 0 =>
    (fun _ => .needMore,
     fun n _ => match n with
       | 0 => .complete 0
       | _ + 1 => .needMore)
  | fuel + 1 =>
    let prev := parseFns fuel
    (fun bs =>
      match bs with
      | [] => .needMore
      | t :: rest =>
        if t = 43 ∨ t = 45 ∨ t = 58 then
          match scanLine rest with
          | .found content _ => .complete (1 + content.length + 2)
          | .needMore => .needMore
          | .malformed => .malformed
        else if t = 36 then
          match scanLine rest with
          | .found content rest2 =>
            match parseIntContent content with
            | none => .malformed
            | some n =>
              if n < 0 then .complete (1 + content.length + 2)
              else
                let len := n.toNat
                if rest2.length < len + 2 then .needMore
                else if (rest2.drop len).take 2 = [13, 10] then
                  .complete (1 + content.length + 2 + len + 2)
                else .malformed
          | .needMore => .needMore
          | .malformed => .malformed
        else if t = 42 then
          match scanLine rest with
          | .found content rest2 =>
            match parseIntContent content with
            | none => .malformed
            | some n =>
              if n < 0 then .complete (1 + content.length + 2)
              else
                match prev.2 n.toNat rest2 with
                | .complete k => .complete (1 + content.length + 2 + k)
                | .needMore => .needMore
                | .malformed => .malformed
          | .needMore => .needMore
          | .malformed => .malformed
        else .malformed,
     fun n bs =>
      match n with
      | 0 => .complete 0
      | n + 1 =>
        match prev.1 bs with
        | .complete k =>
          match prev.2 n (bs.drop k) with
          | .complete k2 => .complete (k + k2)
          | .needMore => .needMore
          | .malformed => .malformed
        | .needMore => .needMore
        | .malformed => .malformed)

/-- Locate one complete RESP message at the head of the input. -/
def parseOne (fuel : Nat) (bs : List Byte) : OneRes := (parseFns fuel).1 bs


/-- The exception thrown by the framer on malformed input
(`BadRedisMessage` in the source). -/
structure BadRedisMessage where
deriving DecidableEq

/-- Modelled from the spec (3, "Parse Result"): the sequence of complete
messages, the `finished` flag (buffer consumed exactly), and
`interruptPoint`, the offset of the first byte of the trailing partial
message (`resume_offset`). -/
structure SplitResult where
  msgs : List (List Byte)
  finished : Bool
  interruptPoint : Nat
deriving DecidableEq

/-- Main framing loop: repeatedly take one complete message off the front,
stopping cleanly at end of input or at a trailing partial message, and
propagating malformedness.  Returns the complete messages, the `finished`
flag and the unconsumed remainder. -/
def splitLoop : Nat → List Byte → Except BadRedisMessage (List (List Byte) × Bool × List Byte)
  | _, [] => .ok ([], true, [])
  | 0, bs => .ok ([], false, bs)
  | fuel + 1, bs =>
    match parseOne (bs.length + 1) bs with
    | .complete k =>
      match splitLoop fuel (bs.drop k) with
      | .ok (ms, fin, rem) => .ok ((bs.take k) :: ms, fin, rem)
      | .error e => .error e
    | .needMore => .ok ([], false, bs)
    | .malformed => .error ⟨⟩

/-- Modelled from the spec (4.2): `msg::split` over a byte range.  The
`resume_offset` of the result is the offset where the trailing partial
message begins, i.e. the total length of the complete messages (spec 3:
"the concatenation of message byte ranges plus a possible trailing partial
tail equals the buffered bytes"). -/
def split (bs : List Byte) : Except BadRedisMessage SplitResult :=
  match splitLoop (bs.length + 1) bs with
  | .ok (ms, fin, _) => .ok ⟨ms, fin, ms.flatten.length⟩
  | .error e => .error e

end msg

/-- Epoll event / interest mask restricted to the flags the source uses:
`EPOLLIN` (read), `EPOLLOUT` (write), `EPOLLRDHUP` (rdhup) and `EPOLLET`
(et, edge-triggered mode). -/
structure EvMask where
  read : Bool
  write : Bool
  rdhup : Bool
  et : Bool
deriving DecidableEq

/-- The mask `EPOLLIN | EPOLLET` (proxy.cpp line 147). -/
def maskInEt : EvMask := ⟨true, false, false, true⟩

/-- The mask `EPOLLIN | EPOLLOUT | EPOLLET` (proxy.cpp lines 201, 279, 347, 393). -/
def maskInOutEt : EvMask := ⟨true, true, false, true⟩

/-- State of the singleton upstream session (`class Server` of proxy.cpp):
`clients` is the staging queue, `ready_clients` the pending queue whose
`none` entries are the tombstones left by `pop_client`, and `_buffer` the
upstream reply buffer. -/
structure Server where
  clients : List ClientId
  ready_clients : List (Option ClientId)
  _buffer : List Byte
deriving DecidableEq

/-- Embedding of `Server::push_client` (proxy.cpp lines 209-212):
`clients.push_back(cli)`. -/
def Server.push_client (sv : Server) (cli : ClientId) : Server :=
  { sv with clients := sv.clients ++ [cli] }

/-- Embedding of the file-static `pop_client_from` (proxy.cpp lines 214-224):
`std::find_if` for the first element equal to `cli`, then `erase` it. -/
def pop_client_from : List ClientId → ClientId → List ClientId
  | [], _ => []
  | x :: xs, cli => if x = cli then xs else x :: pop_client_from xs cli

/-- Embedding of `Server::pop_client` (proxy.cpp lines 226-231): erase the
first occurrence of `cli` from the staging queue, and `std::replace` every
occurrence of `cli` in the pending queue by `nullptr` (a tombstone). -/
def Server.pop_client (sv : Server) (cli : ClientId) : Server :=
  { sv with
    clients := pop_client_from sv.clients cli,
    ready_clients := sv.ready_clients.map
      (fun x => if x = some cli then none else x) }

/-- Result of `Server::_send_to` (proxy.cpp lines 115-153).  `st` is the
server state afterwards; `bufs` the client buffers afterwards (the handler
body performs no mutation of any client buffer: `buffer_ready` only builds
iovec views, which per spec 4.1 "must not copy" and leave the buffer
intact); `wrote` is `some bytes` when a `writev` of those bytes was issued
and `none` when the handler returned early; `interest` is `some m` when
`epoll_ctl(MOD)` set the upstream interest to `m` and `none` when the
handler returned early.  The model assumes the `writev` transfers all bytes
(the source busy-loops on EAGAIN and aborts on a short write). -/
structure SendResult where
  st : Server
  bufs : ClientBufs
  wrote : Option (List Byte)
  interest : Option EvMask

/-- Embedding of `Server::_send_to` (proxy.cpp lines 115-153): return early
if the staging queue is empty, or if the pending queue is non-empty;
otherwise move the whole staging queue into the pending queue, gather every
staged client's buffer in queue order into one `writev`, and set the
upstream interest to `EPOLLIN | EPOLLET`. -/
def Server.send_to (sv : Server) (bufs : ClientBufs) : SendResult :=
  if sv.clients.isEmpty then ⟨sv, bufs, none, none⟩
  else if !sv.ready_clients.isEmpty then ⟨sv, bufs, none, none⟩
  else
    ⟨{ clients := [],
       ready_clients := sv.clients.map some,
       _buffer := sv._buffer },
     bufs,
     some (sv.clients.map bufs).flatten,
     some maskInEt⟩

/-- Modelled from the spec (4.4 "append that message's bytes to
`pending[i].reply_buffer`"): `Buffer::copy_from` of the buffer component is
not among the given sources, so the message bytes are appended to the
receiving client's buffer.  Embedding of the file-static `copy_messages`
(proxy.cpp lines 155-167): walk the framed messages in step with the
pending queue, skipping `nullptr` tombstone entries (their message bytes
are dropped).  The caller guarantees there are at least as many pending
entries as messages; the impossible short-queue case is the identity. -/
def copy_messages : List (Option ClientId) → List (List Byte) → ClientBufs → ClientBufs
  | _, [], bufs => bufs
  | [], _, bufs => bufs
  | none :: cs, _ :: ms, bufs => copy_messages cs ms bufs
  | some c :: cs, m :: ms, bufs =>
    copy_messages cs ms (fun x => if x = c then bufs x ++ m else bufs x)

/-- Result of `Server::_recv_from` (proxy.cpp lines 169-207).  `idle` is the
early return on a zero-byte read; `fatal c` is `exit(c)`; `ok st bufs
notified interest` gives the server state, the client buffers, the list of
live clients marked `EPOLLIN | EPOLLOUT | EPOLLET` by `notify_each`
(proxy.cpp lines 343-360), and the upstream interest set at the end. -/
inductive RecvResult where
  | idle : RecvResult
  | fatal : Nat → RecvResult
  | ok : Server → ClientBufs → List ClientId → EvMask → RecvResult

/-- Embedding of `Server::_recv_from` (proxy.cpp lines 169-207).  `incoming`
is what the edge-triggered drain `_buffer.read(fd)` appended to the reply
buffer, so `n = incoming.length`.  A zero-byte read returns immediately.
Then the framer runs on the whole buffer: a `BadRedisMessage` is fatal
(`exit(1)`), as is framing more messages than there are pending entries.
Otherwise the messages are routed by `copy_messages`, the routed live
clients are notified, the first `M` pending entries are erased, and the
reply buffer is cleared when the parse finished or truncated from the
front to the interrupt point otherwise; the upstream interest becomes
`EPOLLIN | EPOLLOUT | EPOLLET`. -/
def Server.recv_from (sv : Server) (bufs : ClientBufs) (incoming : List Byte) : RecvResult :=
  if incoming.length = 0 then .idle
  else
    match msg.split (sv._buffer ++ incoming) with
    | .error _ => .fatal 1
    | .ok r =>
      if sv.ready_clients.length < r.msgs.length then .fatal 1
      else
        .ok
          { clients := sv.clients,
            ready_clients := sv.ready_clients.drop r.msgs.length,
            _buffer := if r.finished then []
                       else (sv._buffer ++ incoming).drop r.interruptPoint }
          (copy_messages sv.ready_clients r.msgs bufs)
          ((sv.ready_clients.take r.msgs.length).filterMap id)
          maskInOutEt

/-- Outcome of a `triggered` dispatch: the session destroys itself, or it
processes the event by running its receive and/or send handler. -/
inductive TrigAction where
  | destroy : TrigAction
  | process (doRecv doSend : Bool) : TrigAction
deriving DecidableEq

/-- Embedding of `Server::triggered` (proxy.cpp lines 101-113): on
`EPOLLRDHUP` delete the session and return, running neither `_recv_from`
nor `_send_to`; otherwise run `_recv_from` on `EPOLLIN` and `_send_to` on
`EPOLLOUT`. -/
def Server.triggered (events : EvMask) : TrigAction :=
  if events.rdhup then .destroy else .process events.read events.write

/-- Embedding of `Client::triggered` (proxy.cpp lines 238-250): same
dispatch shape as the upstream session. -/
def Client.triggered (events : EvMask) : TrigAction :=
  if events.rdhup then .destroy else .process events.read events.write

/-- Global state of the proxy process: the list of live client sessions,
the buffer of every client, the singleton upstream session (`none` before
`connect_to` and after upstream hang-up), the interest mask currently
registered for the upstream fd (`none` when no upstream fd is registered),
and `edges`, a history counter of client readable edges that enqueued a
client into staging (one `push_client` per edge). -/
structure SysState where
  live : List ClientId
  bufs : ClientBufs
  srv : Option Server
  srvInterest : Option EvMask
  edges : Nat

/-- The initial process state: no clients, no upstream. -/
def initSys : SysState :=
  { live := [], bufs := fun _ => [], srv := none, srvInterest := none, edges := 0 }

/-- A fresh upstream session as built by `Proxy::connect_to`
(proxy.cpp lines 362-409): empty queues and an empty reply buffer. -/
def freshServer : Server := { clients := [], ready_clients := [], _buffer := [] }

/-- Effect of `Proxy::accept_from` accepting one connection
(proxy.cpp lines 411-438): a fresh `Client` with an empty buffer is
created and registered; nothing else changes. -/
def acceptF (s : SysState) (c : ClientId) : SysState :=
  { s with
    live := c :: s.live,
    bufs := fun x => if x = c then [] else s.bufs x }

/-- Effect of `Client::_recv_from` on a readable edge delivering `inc ≠ []`
(proxy.cpp lines 265-285): connect the singleton upstream if absent
(registering its fd with `EPOLLIN | EPOLLOUT | EPOLLET`), `push_client`
self into staging, append the read bytes to the client's buffer, and set
the upstream interest to `EPOLLIN | EPOLLOUT | EPOLLET`. -/
def clientRecvLiveF (s : SysState) (c : ClientId) (inc : List Byte) : SysState :=
  { s with
    srv := some ((s.srv.getD freshServer).push_client c),
    bufs := fun x => if x = c then s.bufs x ++ inc else s.bufs x,
    srvInterest := some maskInOutEt,
    edges := s.edges + 1 }

/-- Effect of `Client::_recv_from` on a zero-byte read (proxy.cpp lines
265-277): the upstream is connected if absent and the client pushed into
staging as above, but the read returns 0, so the client deletes itself:
`Proxy::shut_client` calls `Server::pop_client` and deregisters the client
fd.  The upstream interest modification at the end is not reached; only a
fresh registration by `connect_to` can change it here. -/
def clientRecvZeroF (s : SysState) (c : ClientId) : SysState :=
  { s with
    live := s.live.erase c,
    srv := some (((s.srv.getD freshServer).push_client c).pop_client c),
    srvInterest := if s.srv = none then some maskInOutEt else s.srvInterest }

/-- Effect of an `EPOLLRDHUP` event on a client (proxy.cpp lines 238-243):
the client deletes itself, and `Proxy::shut_client` pops it from the
upstream queues when an upstream exists. -/
def clientHupF (s : SysState) (c : ClientId) : SysState :=
  { s with
    live := s.live.erase c,
    srv := s.srv.map (fun sv => sv.pop_client c) }

/-- Effect of `Client::_send_to` (proxy.cpp lines 252-263): the client's
buffer is written to its fd and cleared; only the client's own interest
mask (untracked here) changes. -/
def clientSendF (s : SysState) (c : ClientId) : SysState :=
  { s with bufs := fun x => if x = c then [] else s.bufs x }

/-- Effect of `Server::_send_to` on a writable edge of the upstream fd:
apply the handler model; the upstream interest changes only when the
handler issues its `epoll_ctl(MOD)`. -/
def serverSendF (s : SysState) (sv : Server) : SysState :=
  { s with
    srv := some (sv.send_to s.bufs).st,
    srvInterest :=
      match (sv.send_to s.bufs).interest with
      | some m => some m
      | none => s.srvInterest }

/-- Effect of a successful (non-idle, non-fatal) `Server::_recv_from` on a
readable edge of the upstream fd. -/
def serverRecvF (s : SysState) (st : Server) (bufs : ClientBufs) (m : EvMask) : SysState :=
  { s with srv := some st, bufs := bufs, srvInterest := some m }

/-- Effect of an `EPOLLRDHUP` event on the upstream (proxy.cpp lines
96-106): the upstream deletes itself and `Proxy::shut_server` clears the
singleton; its fd (and registered interest) is gone. -/
def serverHupF (s : SysState) : SysState :=
  { s with srv := none, srvInterest := none }

/-- One reactor dispatch step of the proxy process.  Fatal paths
(`exit`) and pure no-op dispatches have no successor state. -/
inductive Step : SysState → SysState → Prop where
  | accept (s : SysState) (c : ClientId) (h : c ∉ s.live) :
      Step s (acceptF s c)
  | clientRecvLive (s : SysState) (c : ClientId) (inc : List Byte)
      (h1 : c ∈ s.live) (h2 : inc ≠ []) :
      Step s (clientRecvLiveF s c inc)
  | clientRecvZero (s : SysState) (c : ClientId) (h1 : c ∈ s.live) :
      Step s (clientRecvZeroF s c)
  | clientHup (s : SysState) (c : ClientId) (h1 : c ∈ s.live) :
      Step s (clientHupF s c)
  | clientSend (s : SysState) (c : ClientId) (h1 : c ∈ s.live) :
      Step s (clientSendF s c)
  | serverSend (s : SysState) (sv : Server) (h : s.srv = some sv) :
      Step s (serverSendF s sv)
  | serverRecv (s : SysState) (sv : Server) (inc : List Byte)
      (st : Server) (bufs : ClientBufs) (ntf : List ClientId) (m : EvMask)
      (hs : s.srv = some sv)
      (h : sv.recv_from s.bufs inc = RecvResult.ok st bufs ntf m) :
      Step s (serverRecvF s st bufs m)
  | serverHup (s : SysState) (sv : Server) (h : s.srv = some sv) :
      Step s (serverHupF s)

/-- Reachability of a process state from startup through reactor steps. -/
inductive Reach : SysState → Prop where
  | init : Reach initSys
  | step {s s' : SysState} : Reach s → Step s s' → Reach s'

/-- Length of the pending queue (0 when no upstream exists). -/
def pendingLen (s : SysState) : Nat :=
  (s.srv.map (fun sv => sv.ready_clients.length)).getD 0

/-- Length of the staging queue (0 when no upstream exists). -/
def stagingLen (s : SysState) : Nat :=
  (s.srv.map (fun sv => sv.clients.length)).getD 0

/-- A reachable state with one live client whose requests were enqueued on
two separate readable edges with an upstream send in between: the client
occupies one pending slot and one staging slot at once. -/
def dupState : SysState :=
  clientRecvLiveF
    (serverSendF (clientRecvLiveF (acceptF initSys 0) 0 [43]) ⟨[0], [], []⟩)
    0 [43]

/-- Invariant tying the upstream singleton to its registered interest:
the upstream session and its fd registration are absent together, and a
registered upstream interest is one of the only two masks the source ever
installs for the upstream fd (`EPOLLIN | EPOLLOUT | EPOLLET` at
registration and after `_recv_from`, `EPOLLIN | EPOLLET` after
`_send_to`). -/
def SrvInv (s : SysState) : Prop :=
  (s.srv = none ↔ s.srvInterest = none)
  ∧ ∀ m : EvMask, s.srvInterest = some m → m = maskInOutEt ∨ m = maskInEt

/-! ## Theorems -/

theorem msg.splitLoop_flatten : ∀ (fuel : Nat) (bs : List Byte) (ms : List (List Byte))
    (fin : Bool) (rem : List Byte),
    splitLoop fuel bs = .ok (ms, fin, rem) →
    ms.flatten ++ rem = bs ∧ (fin = true → rem = []) := by
  intro fuel
  induction fuel with
  | zero =>
    intro bs ms fin rem h
    cases bs with
    | nil =>
      simp only [splitLoop] at h
      cases h
      simp
    | cons b bs' =>
      simp only [splitLoop] at h
      cases h
      simp
  | succ fuel ih =>
    intro bs ms fin rem h
    cases bs with
    | nil =>
      simp only [splitLoop] at h
      cases h
      simp
    | cons b bs' =>
      simp only [splitLoop] at h
      split at h
      · split at h
        · rename_i hs
          cases h
          obtain ⟨ih1, ih2⟩ := ih _ _ _ _ hs
          refine ⟨?_, ih2⟩
          simp only [List.flatten_cons, List.append_assoc, ih1]
          exact List.take_append_drop _ _
        · cases h
      · cases h
        simp
      · cases h

theorem msg.split_ok (bs : List Byte) (r : SplitResult) (h : split bs = .ok r) :
    r.msgs.flatten ++ bs.drop r.interruptPoint = bs
    ∧ (r.finished = true → bs.drop r.interruptPoint = [])
    ∧ r.interruptPoint = r.msgs.flatten.length := by
  unfold split at h
  cases hs : splitLoop (bs.length + 1) bs with
  | ok triple =>
    obtain ⟨ms, fin, rem⟩ := triple
    rw [hs] at h
    cases h
    obtain ⟨h1, h2⟩ := splitLoop_flatten _ _ _ _ _ hs
    have hdrop : bs.drop ms.flatten.length = rem := by
      rw [← h1, List.drop_left]
    refine ⟨?_, ?_, rfl⟩
    · show ms.flatten ++ bs.drop ms.flatten.length = bs
      rw [hdrop]
      exact h1
    · intro hf
      show bs.drop ms.flatten.length = []
      rw [hdrop]
      exact h2 hf
  | error e =>
    rw [hs] at h
    cases h


theorem copy_messages_eq (pend : List (Option ClientId)) :
    ∀ (msgs : List (List Byte)) (bufs : ClientBufs) (c : ClientId),
    copy_messages pend msgs bufs c
      = bufs c ++ ((pend.zip msgs).filterMap
          (fun p => if p.1 = some c then some p.2 else none)).flatten := by
  induction pend with
  | nil =>
    intro msgs bufs c
    cases msgs <;> simp [copy_messages]
  | cons p cs ih =>
    intro msgs bufs c
    cases msgs with
    | nil => simp [copy_messages]
    | cons m ms =>
      cases p with
      | none =>
        simp only [copy_messages, List.zip_cons_cons, List.filterMap_cons]
        have hne : ((none : Option ClientId) = some c) = False := by simp
        rw [ih ms bufs c]
        simp
      | some c' =>
        simp only [copy_messages, List.zip_cons_cons, List.filterMap_cons]
        rw [ih ms _ c]
        by_cases hc : c' = c
        · subst hc
          simp [List.append_assoc]
        · have h1 : (some c' = some c) = False := by simp [hc]
          have h2 : (c = c') = False := by
            simp only [eq_iff_iff, iff_false]
            exact fun h => hc h.symm
          simp [h1, h2]

theorem Server.recv_from_ok (sv : Server) (bufs : ClientBufs) (incoming : List Byte)
    (r : msg.SplitResult) (h1 : incoming ≠ [])
    (h2 : msg.split (sv._buffer ++ incoming) = Except.ok r)
    (h3 : r.msgs.length ≤ sv.ready_clients.length) :
    sv.recv_from bufs incoming = RecvResult.ok
      { clients := sv.clients,
        ready_clients := sv.ready_clients.drop r.msgs.length,
        _buffer := if r.finished then []
                   else (sv._buffer ++ incoming).drop r.interruptPoint }
      (copy_messages sv.ready_clients r.msgs bufs)
      ((sv.ready_clients.take r.msgs.length).filterMap id)
      maskInOutEt := by
  have hlen : ¬ incoming.length = 0 := by simpa using h1
  have hlt : ¬ sv.ready_clients.length < r.msgs.length := Nat.not_lt.mpr h3
  simp only [Server.recv_from, h2, if_neg hlen, if_neg hlt]

theorem Server.recv_from_ok_inv (sv : Server) (bufs : ClientBufs) (inc : List Byte)
    (st : Server) (bufs' : ClientBufs) (ntf : List ClientId) (m : EvMask)
    (h : sv.recv_from bufs inc = RecvResult.ok st bufs' ntf m) :
    st.clients = sv.clients
    ∧ st.ready_clients.length ≤ sv.ready_clients.length
    ∧ m = maskInOutEt := by
  unfold Server.recv_from at h
  split at h
  · cases h
  · split at h
    · cases h
    · split at h
      · cases h
      · cases h
        refine ⟨rfl, ?_, rfl⟩
        rw [List.length_drop]
        exact Nat.sub_le _ _

theorem Server.send_to_cases (sv : Server) (bufs : ClientBufs) :
    (sv.clients ≠ [] ∧ sv.ready_clients = [] ∧
      sv.send_to bufs =
        ⟨{ clients := [], ready_clients := sv.clients.map some, _buffer := sv._buffer },
         bufs, some (sv.clients.map bufs).flatten, some maskInEt⟩)
    ∨ ((sv.clients = [] ∨ sv.ready_clients ≠ []) ∧ sv.send_to bufs = ⟨sv, bufs, none, none⟩) := by
  by_cases hc : sv.clients = []
  · right
    refine ⟨Or.inl hc, ?_⟩
    unfold Server.send_to
    rw [if_pos (by simp [hc])]
  · by_cases hr : sv.ready_clients = []
    · left
      refine ⟨hc, hr, ?_⟩
      unfold Server.send_to
      rw [if_neg (by simp [hc]), if_neg (by simp [hr])]
    · right
      refine ⟨Or.inr hr, ?_⟩
      unfold Server.send_to
      rw [if_neg (by simp [hc]), if_pos (by simp [hr])]

theorem pop_client_from_eq_erase (l : List ClientId) (cli : ClientId) :
    pop_client_from l cli = l.erase cli := by
  induction l with
  | nil => rfl
  | cons x xs ih =>
    by_cases hx : x = cli
    · simp [pop_client_from, hx, List.erase_cons]
    · simp [pop_client_from, hx, List.erase_cons, ih]

/-- C3: the upstream `_send_to` is a no-op (no `writev`, no change to
staging, pending or the client buffers, no interest modification) exactly
when the staging queue is empty or the pending queue is non-empty; when it
does act, the whole staging queue is moved into pending (staging becomes
empty), the gathered staged bytes are written in one `writev`, and the
upstream interest is set to readable-only (`EPOLLIN | EPOLLET`). -/
theorem send_to_noop_iff (sv : Server) (bufs : ClientBufs) :
    (sv.send_to bufs = ⟨sv, bufs, none, none⟩ ↔ (sv.clients = [] ∨ sv.ready_clients ≠ []))
    ∧ (sv.clients ≠ [] → sv.ready_clients = [] →
        (sv.send_to bufs).st.clients = []
        ∧ (sv.send_to bufs).st.ready_clients = sv.clients.map some
        ∧ (sv.send_to bufs).st._buffer = sv._buffer
        ∧ (sv.send_to bufs).wrote = some (sv.clients.map bufs).flatten
        ∧ (sv.send_to bufs).interest = some maskInEt) := by
  rcases Server.send_to_cases sv bufs with ⟨hc, hr, heq⟩ | ⟨hcond, heq⟩
  · constructor
    · constructor
      · intro hnoop
        have h2 := heq.symm.trans hnoop
        have h3 := congrArg SendResult.wrote h2
        simp at h3
      · intro hcond2
        cases hcond2 with
        | inl h => exact absurd h hc
        | inr h => exact absurd hr h
    · intro _ _
      rw [heq]
      exact ⟨rfl, rfl, rfl, rfl, rfl⟩
  · constructor
    · exact ⟨fun _ => hcond, fun _ => heq⟩
    · intro hc hr
      cases hcond with
      | inl h => exact absurd h hc
      | inr h => exact absurd hr h

/-- C3 witness: a server with one staged client and nothing pending acts:
staging is moved into pending whole and the interest becomes
`EPOLLIN | EPOLLET`. -/
theorem send_to_noop_iff_inst :
    (Server.send_to ⟨[7], [], []⟩ (fun _ => [43])).st.clients = []
    ∧ (Server.send_to ⟨[7], [], []⟩ (fun _ => [43])).st.ready_clients = [some 7]
    ∧ (Server.send_to ⟨[7], [], []⟩ (fun _ => [43])).st._buffer = []
    ∧ (Server.send_to ⟨[7], [], []⟩ (fun _ => [43])).wrote = some [43]
    ∧ (Server.send_to ⟨[7], [], []⟩ (fun _ => [43])).interest = some maskInEt :=
  (send_to_noop_iff ⟨[7], [], []⟩ (fun _ => [43])).2 (by decide) rfl

/-- C5 (code bug): the source `_send_to` never clears any contributing
client's request buffer after a successful `writev`; concretely, a client
whose two bytes were just written still holds them. -/
theorem send_to_leaves_request_buffers :
    (∀ (sv : Server) (bufs : ClientBufs), (sv.send_to bufs).bufs = bufs)
    ∧ (Server.send_to ⟨[0], [], []⟩ (fun _ => [80, 73])).wrote = some [80, 73]
    ∧ (Server.send_to ⟨[0], [], []⟩ (fun _ => [80, 73])).bufs 0 = [80, 73] := by
  refine ⟨?_, rfl, rfl⟩
  intro sv bufs
  unfold Server.send_to
  split
  · rfl
  · split
    · rfl
    · rfl

/-- C6: `pop_client` removes the (first) occurrence of the client from the
staging queue when present and leaves staging unchanged otherwise; in the
pending queue it tombstones the client in place, so the pending length and
the entry at every other position are unchanged. -/
theorem pop_client_spec (sv : Server) (cli : ClientId) :
    (cli ∈ sv.clients →
       (sv.pop_client cli).clients.length + 1 = sv.clients.length
       ∧ (sv.pop_client cli).clients.count cli + 1 = sv.clients.count cli)
    ∧ (cli ∉ sv.clients → (sv.pop_client cli).clients = sv.clients)
    ∧ (sv.pop_client cli).ready_clients.length = sv.ready_clients.length
    ∧ ∀ i : Nat, (sv.pop_client cli).ready_clients.get? i
        = (sv.ready_clients.get? i).map (fun x => if x = some cli then none else x) := by
  refine ⟨?_, ?_, ?_, ?_⟩
  · intro hmem
    constructor
    · have h1 : (sv.clients.erase cli).length = sv.clients.length - 1 :=
        List.length_erase_of_mem hmem
      have h2 : 0 < sv.clients.length := List.length_pos.mpr (List.ne_nil_of_mem hmem)
      simp only [Server.pop_client, pop_client_from_eq_erase]
      omega
    · have h1 : (sv.clients.erase cli).count cli = sv.clients.count cli - 1 :=
        List.count_erase_self cli sv.clients
      have h2 : 0 < sv.clients.count cli := List.count_pos_iff.mpr hmem
      simp only [Server.pop_client, pop_client_from_eq_erase]
      omega
  · intro hmem
    simp only [Server.pop_client, pop_client_from_eq_erase]
    exact List.erase_of_not_mem hmem
  · simp [Server.pop_client]
  · intro i
    simp [Server.pop_client, List.getElem?_map]

/-- C6 witness: popping client 5 from staging `[5]` and pending
`[some 5, some 6]` empties staging and tombstones slot 0 while slot 1
keeps client 6. -/
theorem pop_client_spec_inst :
    (Server.pop_client ⟨[5], [some 5, some 6], []⟩ 5).clients.length + 1 = 1
    ∧ (Server.pop_client ⟨[5], [some 5, some 6], []⟩ 5).ready_clients.get? 0 = some none := by
  have h := pop_client_spec ⟨[5], [some 5, some 6], []⟩ 5
  exact ⟨(h.1 (by decide)).1, (h.2.2.2 0).trans rfl⟩

/-- C8: a readiness event whose mask contains `EPOLLRDHUP` makes both the
upstream and the client `triggered` handler destroy the session at once,
whatever the read/write bits of the mask are; neither the receive nor the
send processing of that event runs (the dispatch result is `destroy`, not
`process`). -/
theorem triggered_rdhup (ev : EvMask) (h : ev.rdhup = true) :
    Server.triggered ev = TrigAction.destroy
    ∧ Client.triggered ev = TrigAction.destroy := by
  unfold Server.triggered Client.triggered
  rw [h]
  exact ⟨rfl, rfl⟩

/-- C8 witness: the mask with all of read, write, rdhup set destroys both
session kinds. -/
theorem triggered_rdhup_inst :
    Server.triggered ⟨true, true, true, true⟩ = TrigAction.destroy
    ∧ Client.triggered ⟨true, true, true, true⟩ = TrigAction.destroy :=
  triggered_rdhup ⟨true, true, true, true⟩ rfl

/-- C10: when a client occurs `n ≥ 2` times in the staging queue, one
`pop_client` call removes exactly one occurrence (leaving `n - 1`), while
every occurrence of that client in the pending queue is tombstoned. -/
theorem pop_client_dup (sv : Server) (cli : ClientId) (n : Nat)
    (h1 : sv.clients.count cli = n) (h2 : 2 ≤ n) :
    (sv.pop_client cli).clients.count cli = n - 1
    ∧ 1 ≤ (sv.pop_client cli).clients.count cli
    ∧ ∀ i : Nat, (sv.pop_client cli).ready_clients.get? i
        = (sv.ready_clients.get? i).map (fun x => if x = some cli then none else x) := by
  have hc : (sv.clients.erase cli).count cli = sv.clients.count cli - 1 :=
    List.count_erase_self cli sv.clients
  refine ⟨?_, ?_, ?_⟩
  · simp only [Server.pop_client, pop_client_from_eq_erase]
    omega
  · simp only [Server.pop_client, pop_client_from_eq_erase]
    omega
  · intro i
    simp [Server.pop_client, List.getElem?_map]

/-- C10 witness: with staging `[5, 5]` one pop leaves one occurrence of
client 5, and the pending slot holding client 5 is tombstoned. -/
theorem pop_client_dup_inst :
    (Server.pop_client ⟨[5, 5], [some 5], []⟩ 5).clients.count 5 = 1
    ∧ (Server.pop_client ⟨[5, 5], [some 5], []⟩ 5).ready_clients.get? 0 = some none := by
  have h := pop_client_dup ⟨[5, 5], [some 5], []⟩ 5 2 rfl (by decide)
  exact ⟨h.1, (h.2.2 0).trans rfl⟩

theorem copy_messages_nil (pend : List (Option ClientId)) (bufs : ClientBufs) :
    copy_messages pend [] bufs = bufs := by
  cases pend with
  | nil => rfl
  | cons p cs => cases p <;> rfl

/-- C1: when the framer yields `M` complete messages from the upstream
reply buffer and the pending queue is long enough (otherwise the process
exits, see C2), the handler appends the i-th message to the buffer of the
i-th pending entry when that entry is a live client, drops the message when
the entry is a tombstone, and erases exactly the first `M` pending entries;
the staging queue is untouched.  The second conjunct characterises the
routing per client: a client's buffer grows by exactly the concatenation of
the messages at the positions it occupies in the pending queue. -/
theorem recv_from_routes (sv : Server) (bufs : ClientBufs) (incoming : List Byte)
    (r : msg.SplitResult) (h1 : incoming ≠ [])
    (h2 : msg.split (sv._buffer ++ incoming) = Except.ok r)
    (h3 : r.msgs.length ≤ sv.ready_clients.length) :
    sv.recv_from bufs incoming = RecvResult.ok
      { clients := sv.clients,
        ready_clients := sv.ready_clients.drop r.msgs.length,
        _buffer := if r.finished then []
                   else (sv._buffer ++ incoming).drop r.interruptPoint }
      (copy_messages sv.ready_clients r.msgs bufs)
      ((sv.ready_clients.take r.msgs.length).filterMap id)
      maskInOutEt
    ∧ ∀ c : ClientId, copy_messages sv.ready_clients r.msgs bufs c
        = bufs c ++ ((sv.ready_clients.zip r.msgs).filterMap
            (fun p => if p.1 = some c then some p.2 else none)).flatten :=
  ⟨Server.recv_from_ok sv bufs incoming r h1 h2 h3,
   fun c => copy_messages_eq sv.ready_clients r.msgs bufs c⟩

/-- C1 witness: three simple-string replies against pending
`[some 0, none, some 1]`: client 0 receives the first message, the
tombstone swallows the second, client 1 receives the third. -/
theorem recv_from_routes_inst :
    copy_messages [some 0, none, some 1]
      [[43, 65, 13, 10], [43, 66, 13, 10], [43, 67, 13, 10]] (fun _ => []) 0
      = [43, 65, 13, 10]
    ∧ copy_messages [some 0, none, some 1]
      [[43, 65, 13, 10], [43, 66, 13, 10], [43, 67, 13, 10]] (fun _ => []) 1
      = [43, 67, 13, 10] := by
  have h := recv_from_routes ⟨[], [some 0, none, some 1], []⟩ (fun _ => [])
    [43, 65, 13, 10, 43, 66, 13, 10, 43, 67, 13, 10]
    ⟨[[43, 65, 13, 10], [43, 66, 13, 10], [43, 67, 13, 10]], true, 12⟩
    (by decide) (by rfl) (by decide)
  exact ⟨(h.2 0).trans rfl, (h.2 1).trans rfl⟩

/-- C2: after a nonzero upstream read, a framer rejection of the buffered
bytes, or a framing of more complete messages than there are pending
entries, makes the handler exit the process with status 1 (nonzero); the
fatal result carries no state, so no reply byte of that read reaches any
client buffer. -/
theorem recv_from_fatal (sv : Server) (bufs : ClientBufs) (incoming : List Byte)
    (h1 : incoming ≠ []) :
    (∀ e : msg.BadRedisMessage,
        msg.split (sv._buffer ++ incoming) = Except.error e →
        sv.recv_from bufs incoming = RecvResult.fatal 1)
    ∧ (∀ r : msg.SplitResult,
        msg.split (sv._buffer ++ incoming) = Except.ok r →
        sv.ready_clients.length < r.msgs.length →
        sv.recv_from bufs incoming = RecvResult.fatal 1) := by
  have hlen : ¬ incoming.length = 0 := by simpa using h1
  constructor
  · intro e he
    simp only [Server.recv_from, he, if_neg hlen]
  · intro r hr hlt
    simp only [Server.recv_from, hr, if_neg hlen, if_pos hlt]

/-- C2 witness: the malformed upstream bytes `@garbage\x0d\x0a` (scenario S6)
terminate the process with exit status 1. -/
theorem recv_from_fatal_inst :
    Server.recv_from ⟨[], [], []⟩ (fun _ => [])
      [64, 103, 97, 114, 98, 97, 103, 101, 13, 10] = RecvResult.fatal 1 :=
  (recv_from_fatal ⟨[], [], []⟩ (fun _ => [])
    [64, 103, 97, 114, 98, 97, 103, 101, 13, 10] (by decide)).1 ⟨⟩ (by rfl)

/-- C4: after a nonzero read that does not exit, the reply buffer is
cleared when the parse finished exactly, and otherwise truncated from the
front to the interrupt point, which retains exactly the bytes of the
trailing partial message (the complete messages concatenated with the
retained suffix reconstruct the whole buffer); a read framing no complete
message removes nothing from the pending queue and keeps the whole
buffered bytes. -/
theorem recv_from_buffer (sv : Server) (bufs : ClientBufs) (incoming : List Byte)
    (r : msg.SplitResult) (h1 : incoming ≠ [])
    (h2 : msg.split (sv._buffer ++ incoming) = Except.ok r)
    (h3 : r.msgs.length ≤ sv.ready_clients.length) :
    (r.finished = true →
        sv.recv_from bufs incoming = RecvResult.ok
          { clients := sv.clients,
            ready_clients := sv.ready_clients.drop r.msgs.length,
            _buffer := [] }
          (copy_messages sv.ready_clients r.msgs bufs)
          ((sv.ready_clients.take r.msgs.length).filterMap id) maskInOutEt)
    ∧ (r.finished = false →
        sv.recv_from bufs incoming = RecvResult.ok
          { clients := sv.clients,
            ready_clients := sv.ready_clients.drop r.msgs.length,
            _buffer := (sv._buffer ++ incoming).drop r.interruptPoint }
          (copy_messages sv.ready_clients r.msgs bufs)
          ((sv.ready_clients.take r.msgs.length).filterMap id) maskInOutEt
        ∧ r.msgs.flatten ++ (sv._buffer ++ incoming).drop r.interruptPoint
            = sv._buffer ++ incoming)
    ∧ (r.msgs = [] →
        sv.recv_from bufs incoming = RecvResult.ok
          { clients := sv.clients,
            ready_clients := sv.ready_clients,
            _buffer := sv._buffer ++ incoming }
          bufs [] maskInOutEt) := by
  have base := Server.recv_from_ok sv bufs incoming r h1 h2 h3
  obtain ⟨hflat, hfin, hip⟩ := msg.split_ok _ _ h2
  refine ⟨?_, ?_, ?_⟩
  · intro hf
    simpa [hf] using base
  · intro hf
    exact ⟨by simpa [hf] using base, hflat⟩
  · intro hm
    have hbuf : sv._buffer ++ incoming ≠ [] := by simp [h1]
    have hip0 : r.interruptPoint = 0 := by rw [hip, hm]; rfl
    have hff : r.finished = false := by
      cases hfc : r.finished with
      | true =>
        have hnil := hfin hfc
        rw [hip0, List.drop_zero] at hnil
        exact absurd hnil hbuf
      | false => rfl
    simpa [hff, hm, hip0, copy_messages_nil] using base

/-- C4 witness: scenario S4's first read `+PO` against two pending clients
frames no message, removes nothing from pending, and keeps `+PO`
buffered. -/
theorem recv_from_buffer_inst :
    Server.recv_from ⟨[], [some 0, some 1], []⟩ (fun _ => []) [43, 80, 79]
      = RecvResult.ok ⟨[], [some 0, some 1], [43, 80, 79]⟩ (fun _ => []) [] maskInOutEt :=
  (recv_from_buffer ⟨[], [some 0, some 1], []⟩ (fun _ => []) [43, 80, 79]
    ⟨[], false, 0⟩ (by decide) (by rfl) (by decide)).2.2 rfl

theorem step_srvInv {s s' : SysState} (hstep : Step s s') (hinv : SrvInv s) :
    SrvInv s' := by
  obtain ⟨hiff, hmask⟩ := hinv
  cases hstep with
  | accept c h =>
    exact ⟨hiff, hmask⟩
  | clientRecvLive c inc h1 h2 =>
    refine ⟨by simp [clientRecvLiveF], ?_⟩
    intro m hm
    simp only [clientRecvLiveF] at hm
    cases hm
    exact Or.inl rfl
  | clientRecvZero c h1 =>
    by_cases hsrv : s.srv = none
    · refine ⟨by simp [clientRecvZeroF, hsrv], ?_⟩
      intro m hm
      simp only [clientRecvZeroF, if_pos hsrv] at hm
      cases hm
      exact Or.inl rfl
    · refine ⟨?_, ?_⟩
      · simp only [clientRecvZeroF, if_neg hsrv]
        constructor
        · intro h
          cases h
        · intro h
          exact absurd (hiff.mpr h) hsrv
      · intro m hm
        simp only [clientRecvZeroF, if_neg hsrv] at hm
        exact hmask m hm
  | clientHup c h1 =>
    refine ⟨?_, hmask⟩
    simp only [clientHupF]
    rw [Option.map_eq_none']
    exact hiff
  | clientSend c h1 =>
    exact ⟨hiff, hmask⟩
  | serverSend sv hs =>
    rcases Server.send_to_cases sv s.bufs with ⟨_, _, heq⟩ | ⟨_, heq⟩
    · refine ⟨?_, ?_⟩
      · simp [serverSendF, heq]
      · intro m hm
        simp only [serverSendF, heq] at hm
        cases hm
        exact Or.inr rfl
    · refine ⟨?_, ?_⟩
      · simp only [serverSendF, heq]
        constructor
        · intro h
          cases h
        · intro h
          exact absurd (hiff.mpr h) (by simp [hs])
      · intro m hm
        simp only [serverSendF, heq] at hm
        exact hmask m hm
  | serverRecv sv inc st bufs ntf m hs h =>
    refine ⟨by simp [serverRecvF], ?_⟩
    intro m' hm'
    simp only [serverRecvF] at hm'
    cases hm'
    exact Or.inl (Server.recv_from_ok_inv sv s.bufs inc st bufs ntf m h).2.2
  | serverHup sv hs =>
    exact ⟨by simp [serverHupF], by simp [serverHupF]⟩

theorem reach_srvInv {s : SysState} (h : Reach s) : SrvInv s := by
  induction h with
  | init =>
    exact ⟨by simp [initSys], by simp [initSys]⟩
  | step hr hstep ih =>
    exact step_srvInv hstep ih

/-- C9: in every reachable state the interest mask registered for the
upstream fd never contains `EPOLLRDHUP`; it is always one of
`EPOLLIN | EPOLLOUT | EPOLLET` or `EPOLLIN | EPOLLET`, and whenever the
upstream fd becomes registered (interest appears out of none) the initial
registration is `EPOLLIN | EPOLLOUT | EPOLLET`. -/
theorem upstream_interest_no_hup :
    (∀ (s : SysState) (m : EvMask), Reach s → s.srvInterest = some m →
        m.rdhup = false ∧ (m = maskInOutEt ∨ m = maskInEt))
    ∧ (∀ (s s' : SysState) (m : EvMask), Reach s → Step s s' →
        s.srvInterest = none → s'.srvInterest = some m → m = maskInOutEt) := by
  constructor
  · intro s m hr hm
    rcases (reach_srvInv hr).2 m hm with h | h <;> subst h
    · exact ⟨rfl, Or.inl rfl⟩
    · exact ⟨rfl, Or.inr rfl⟩
  · intro s s' m hr hstep hnone hsome
    have hinv := reach_srvInv hr
    have hsrv : s.srv = none := hinv.1.mpr hnone
    cases hstep with
    | accept c h =>
      rw [show (acceptF s c).srvInterest = s.srvInterest from rfl, hnone] at hsome
      cases hsome
    | clientRecvLive c inc h1 h2 =>
      simp only [clientRecvLiveF] at hsome
      cases hsome
      rfl
    | clientRecvZero c h1 =>
      simp only [clientRecvZeroF, if_pos hsrv] at hsome
      cases hsome
      rfl
    | clientHup c h1 =>
      rw [show (clientHupF s c).srvInterest = s.srvInterest from rfl, hnone] at hsome
      cases hsome
    | clientSend c h1 =>
      rw [show (clientSendF s c).srvInterest = s.srvInterest from rfl, hnone] at hsome
      cases hsome
    | serverSend sv hs =>
      rw [hsrv] at hs
      cases hs
    | serverRecv sv inc st bufs ntf m2 hs h =>
      rw [hsrv] at hs
      cases hs
    | serverHup sv hs =>
      rw [hsrv] at hs
      cases hs

/-- C9 witness: after accepting client 0 and one readable edge from it, the
upstream fd is registered and its mask is `EPOLLIN | EPOLLOUT | EPOLLET`,
which has no `EPOLLRDHUP`. -/
theorem upstream_interest_no_hup_inst :
    maskInOutEt.rdhup = false ∧ (maskInOutEt = maskInOutEt ∨ maskInOutEt = maskInEt) :=
  upstream_interest_no_hup.1 (clientRecvLiveF (acceptF initSys 0) 0 [43]) maskInOutEt
    (Reach.step (Reach.step Reach.init (Step.accept initSys 0 (by decide)))
      (Step.clientRecvLive (acceptF initSys 0) 0 [43] (by decide) (by decide)))
    rfl

/-- C7 counterexample: the state reached by accept, a first readable edge,
an upstream send, and a second readable edge of the same client is
reachable, yet `|pending| + |staging| = 2` exceeds the single live client:
a client is enqueued once per readable edge, so the queues are not bounded
by the number of live clients. -/
theorem queue_bound_cex :
    Reach dupState
    ∧ ¬ (pendingLen dupState + stagingLen dupState ≤ dupState.live.length) := by
  constructor
  · exact Reach.step
      (Reach.step
        (Reach.step
          (Reach.step Reach.init (Step.accept initSys 0 (by decide)))
          (Step.clientRecvLive (acceptF initSys 0) 0 [43] (by decide) (by decide)))
        (Step.serverSend (clientRecvLiveF (acceptF initSys 0) 0 [43]) ⟨[0], [], []⟩ rfl))
      (Step.clientRecvLive
        (serverSendF (clientRecvLiveF (acceptF initSys 0) 0 [43]) ⟨[0], [], []⟩)
        0 [43] (by decide) (by decide))
  · decide

/-- C7 (amended): the sum of the lengths of the pending and staging queues
is bounded by the number of client readable-edge enqueues performed so far
(one `push_client` per readable edge), not by the number of live clients:
every step either enqueues exactly one staging entry while bumping the edge
counter, or leaves the sum unchanged, or shrinks the queues. -/
theorem queues_bounded_by_edges (s : SysState) (h : Reach s) :
    pendingLen s + stagingLen s ≤ s.edges := by
  induction h with
  | init => simp [initSys, pendingLen, stagingLen]
  | @step t t' hr hstep ih =>
    cases hstep with
    | accept c h =>
      simpa [acceptF, pendingLen, stagingLen] using ih
    | clientRecvLive c inc h1 h2 =>
      cases hsrv : t.srv with
      | none =>
        simp [clientRecvLiveF, pendingLen, stagingLen, hsrv, Server.push_client,
          freshServer]
      | some sv =>
        simp only [clientRecvLiveF, pendingLen, stagingLen, hsrv, Server.push_client,
          Option.getD_some, Option.map_some', List.length_append, List.length_cons,
          List.length_nil] at ih ⊢
        omega
    | clientRecvZero c h1 =>
      cases hsrv : t.srv with
      | none =>
        simp [clientRecvZeroF, pendingLen, stagingLen, hsrv, Server.push_client,
          Server.pop_client, freshServer, pop_client_from_eq_erase]
      | some sv =>
        have hlen : ((sv.clients ++ [c]).erase c).length = sv.clients.length := by
          rw [List.length_erase_of_mem (by simp)]
          simp
        simp only [clientRecvZeroF, pendingLen, stagingLen, hsrv, Server.push_client,
          Server.pop_client, pop_client_from_eq_erase, Option.getD_some,
          Option.map_some', List.length_map, hlen] at ih ⊢
        omega
    | clientHup c h1 =>
      cases hsrv : t.srv with
      | none =>
        simp [clientHupF, pendingLen, stagingLen, hsrv]
      | some sv =>
        have hlen : (pop_client_from sv.clients c).length ≤ sv.clients.length := by
          rw [pop_client_from_eq_erase]
          exact (List.erase_sublist c sv.clients).length_le
        simp only [clientHupF, pendingLen, stagingLen, hsrv, Server.pop_client,
          Option.map_some', Option.getD_some, List.length_map] at ih ⊢
        omega
    | clientSend c h1 =>
      simpa [clientSendF, pendingLen, stagingLen] using ih
    | serverSend sv hs =>
      rcases Server.send_to_cases sv t.bufs with ⟨_, hr0, heq⟩ | ⟨_, heq⟩
      · simp only [serverSendF, pendingLen, stagingLen, hs, heq, Option.map_some',
          Option.getD_some, List.length_map, List.length_nil, hr0] at ih ⊢
        omega
      · simp only [serverSendF, pendingLen, stagingLen, hs, heq, Option.map_some',
          Option.getD_some] at ih ⊢
        omega
    | serverRecv sv inc st bufs ntf m hs h =>
      obtain ⟨hcl, hrd, _⟩ := Server.recv_from_ok_inv sv t.bufs inc st bufs ntf m h
      simp only [serverRecvF, pendingLen, stagingLen, hs, Option.map_some',
        Option.getD_some, hcl] at ih ⊢
      omega
    | serverHup sv hs =>
      simp [serverHupF, pendingLen, stagingLen]

/-- C7 witness: the bound holds at the initial state, where the queues are
empty and no enqueue has happened. -/
theorem queues_bounded_by_edges_inst :
    pendingLen initSys + stagingLen initSys ≤ initSys.edges :=
  queues_bounded_by_edges initSys Reach.init
